import Mathlib

/-!
Shallow embedding of the patchdb persistence core (src/Util.ts and
src/Database.ts): the `Table` container and the `Database` lifecycle,
save and load machinery, together with theorems settling the spec
claims about them.

JavaScript specifics that matter here and how they are modelled:
* JS objects are modelled as ordered association lists (`List (String × _)`),
  matching property insertion order; a property write updates an existing
  entry in place or appends a fresh one.
* JS arrays are modelled as `List (Option _)`: `none` is an array hole, as
  left behind by `delete arr[i]` or by writing past the end.
* Node's `EventEmitter` invokes a listener with `this` bound to the
  emitter.  `Database.addTable` registers the method reference
  `this.setShouldSaveToTrue` unbound, so when a table emits
  `"stateChange"` the body `this.shouldSave = true` executes with
  `this` = the table, creating a plain `shouldSave` data property on the
  table object; the database's packed state word is not touched.  The
  model makes this explicit (`Table.dbShouldSaveProp`).
* The 32-bit JS bit arithmetic on `Database.state` is modelled on `Nat`
  as the 32-bit two's-complement bit pattern.
-/

namespace PatchDb

/-- JSON values (`JSONParsable` in src/Util.ts).  Objects are ordered
association lists, mirroring JS property insertion order.  Numbers are
modelled as integers (the data in this development is integral). -/
inductive JSON where
  | str (s : String)
  | num (n : Int)
  | bool (b : Bool)
  | null
  | arr (elems : List JSON)
  | obj (fields : List (String × JSON))

/-- JS property write `obj[k] = v`: an existing key keeps its property
slot (every entry under `k` is rewritten in place), a new key is appended
in insertion order. -/
def objSet (m : List (String × α)) (k : String) (v : α) : List (String × α) :=
  if m.any (fun p => p.1 == k) then
    m.map (fun p => if p.1 == k then (k, v) else p)
  else m ++ [(k, v)]

/-- JS property read `obj[k]`: `none` is `undefined`. -/
def objGet (m : List (String × α)) (k : String) : Option α :=
  (m.find? (fun p => p.1 == k)).map (fun p => p.2)

/-- JS `k in obj`. -/
def objHas (m : List (String × α)) (k : String) : Bool :=
  m.any (fun p => p.1 == k)

/-- JS `delete obj[k]`. -/
def objDelete (m : List (String × α)) (k : String) : List (String × α) :=
  m.filter (fun p => p.1 != k)

/-- Util.mapObject: rebuilds the object, transforming every value (the
source's transform also receives the key and the whole object, which no
call site uses). -/
def mapObject (m : List (String × α)) (f : α → β) : List (String × β) :=
  m.map (fun p => (p.1, f p.2))

/-- Util.getCheckBitmap: `((bitmap & mode) ^ mode) === 0`. -/
def getCheckBitmap (bitmap mode : Nat) : Bool :=
  ((bitmap &&& mode) ^^^ mode) == 0

/-- A JS value used as a table key: a string, or a number (an array
index; on an object it behaves as its decimal string). -/
inductive JsKey where
  | str (s : String)
  | num (n : Nat)

/-- The record container of a `Table`: a keyed object, or an array.
`expando` holds the named (non-index) properties that a string-keyed
`set` stores on an array object; they are invisible to iteration,
`map` and `JSON.stringify`. -/
inductive TableContent (α : Type) where
  | keyed (m : List (String × α))
  | indexed (l : List (Option α)) (expando : List (String × α))

/-- src/Database.ts `Table`.  `keyOf` models reading the record's `key`
field (`(obj as { key: string }).key`).  `dbShouldSaveProp` is the plain
`shouldSave` data property that `Database.setShouldSaveToTrue` creates on
the table when the emitter invokes it with `this` = the table (see the
module comment); `hasDbListener` records whether `Database.addTable`
registered that listener on this table. -/
structure Table (α : Type) where
  content : TableContent α
  schemaFromJson : JSON → α
  schemaToJson : α → JSON
  keyOf : α → String
  shouldUseCache : Bool
  cachedContentJson : Option JSON
  hasDbListener : Bool
  dbShouldSaveProp : Option Bool

/-- The `Table` constructor: picks the container from `hasPrimaryKey`,
starts with an invalid cache, and registers the table's own
`stateChange` listener (an arrow function, hence correctly bound) that
clears `shouldUseCache`. -/
def Table.create (hasPrimaryKey : Bool) (fromJ : JSON → α) (toJ : α → JSON)
    (keyOf : α → String) : Table α :=
  { content := if hasPrimaryKey then .keyed [] else .indexed [] []
    schemaFromJson := fromJ
    schemaToJson := toJ
    keyOf := keyOf
    shouldUseCache := false
    cachedContentJson := none
    hasDbListener := false
    dbShouldSaveProp := none }

/-- Model of `Table.stateChange` / `emit("stateChange")`: the constructor's own
listener clears the cache flag; then, if `Database.addTable` attached its
`setShouldSaveToTrue` listener, that function runs with `this` bound to
the emitter — this table — so `this.shouldSave = true` writes a data
property on the table object and leaves the owning database's state word
untouched. -/
def Table.stateChange (t : Table α) : Table α :=
  let t := { t with shouldUseCache := false }
  if t.hasDbListener then { t with dbShouldSaveProp := some true } else t

/-- Model of `Table.add`: array content pushes; keyed content writes the record
under its own `key` field; then `stateChange`. -/
def Table.add (t : Table α) (obj : α) : Table α :=
  let t :=
    match t.content with
    | .indexed l ex => { t with content := .indexed (l ++ [some obj]) ex }
    | .keyed m => { t with content := .keyed (objSet m (t.keyOf obj) obj) }
  t.stateChange

/-- Model of `Table.get`: a numeric key indexes the array (a hole is undefined) or
reads the decimal-string property of an object; a string key reads the
object property or, on an array, a named (expando) property. -/
def Table.get (t : Table α) (key : JsKey) : Option α :=
  match key, t.content with
  | .num n, .indexed l _ => match l.get? n with
    | some o => o
    | none => none
  | .num n, .keyed m => objGet m (toString n)
  | .str s, .keyed m => objGet m s
  | .str s, .indexed _ ex => objGet ex s

/-- JS array element write `arr[i] = v`: in range it updates; past the
end it extends the array, leaving holes. -/
def arrSet (l : List (Option α)) (i : Nat) (v : α) : List (Option α) :=
  if i < l.length then l.set i (some v)
  else l ++ List.replicate (i - l.length) none ++ [some v]

/-- JS `delete arr[i]`: in range leaves a hole, length unchanged; out of
range a no-op. -/
def arrDelete (l : List (Option α)) (i : Nat) : List (Option α) :=
  if i < l.length then l.set i none else l

/-- Model of `Table.set`: the null sentinel deletes the entry (`delete
content[key]`), otherwise `content[key] = obj`; then `stateChange`. -/
def Table.set (t : Table α) (key : JsKey) (obj : Option α) : Table α :=
  let t :=
    match obj, key, t.content with
    | none, .num n, .indexed l ex => { t with content := .indexed (arrDelete l n) ex }
    | none, .str s, .indexed l ex => { t with content := .indexed l (objDelete ex s) }
    | none, .num n, .keyed m => { t with content := .keyed (objDelete m (toString n)) }
    | none, .str s, .keyed m => { t with content := .keyed (objDelete m s) }
    | some v, .num n, .indexed l ex => { t with content := .indexed (arrSet l n v) ex }
    | some v, .str s, .indexed l ex => { t with content := .indexed l (objSet ex s v) }
    | some v, .num n, .keyed m => { t with content := .keyed (objSet m (toString n) v) }
    | some v, .str s, .keyed m => { t with content := .keyed (objSet m s v) }
  t.stateChange

/-- Model of `Table.getAll`: the array branch initialises the result to `[]` and
never fills it; the object branch collects the property values in
iteration order. -/
def Table.getAll (t : Table α) : List α :=
  match t.content with
  | .indexed _ _ => []
  | .keyed m => m.map (fun p => p.2)

/-- The recomputation step of `Table.toJson`:
`content.map(this.schemaToJson)` on an array (`Array.prototype.map`
keeps holes, which JSON rendering later shows as null) or
`mapObject(content, this.schemaToJson)` on an object. -/
def Table.contentToJson (t : Table α) : JSON :=
  match t.content with
  | .indexed l _ =>
      .arr (l.map (fun o => match o with
        | some v => t.schemaToJson v
        | none => .null))
  | .keyed m => .obj (mapObject m t.schemaToJson)

/-- Test of whether `Table.toJson` recomputes: exactly when the cache flag is clear or no
cached value exists. -/
def Table.toJsonRecomputes (t : Table α) : Bool :=
  !t.shouldUseCache || t.cachedContentJson.isNone

/-- Model of `Table.toJson`: returns the cached JSON when the cache flag is set
and a cached value exists; otherwise recomputes, re-caches and sets the
flag. -/
def Table.toJson (t : Table α) : JSON × Table α :=
  match t.shouldUseCache, t.cachedContentJson with
  | true, some j => (j, t)
  | _, _ =>
    let j := t.contentToJson
    (j, { t with cachedContentJson := some j, shouldUseCache := true })

/-- Model of `Table.fromJson`: an array maps elementwise, an object maps every
property value keeping the keys.  Scalar inputs never occur at the call
sites (hydration feeds table-level arrays/objects); they are modelled as
an empty object result. -/
def Table.fromJson (t : Table α) (given : JSON) :
    Sum (List α) (List (String × α)) :=
  match given with
  | .arr l => .inl (l.map t.schemaFromJson)
  | .obj m => .inr (mapObject m t.schemaFromJson)
  | _ => .inr []

/-- The per-table hydration loop of `Database.start` (lines 216-227):
`fromJson`, then `add` every resulting element (array result, by
ascending index) or property value (object result, in iteration
order). -/
def Table.bulkIngest (t : Table α) (json : JSON) : Table α :=
  match t.fromJson json with
  | .inl l => l.foldl Table.add t
  | .inr m => m.foldl (fun acc p => acc.add p.2) t

/-- A mutating table call, as quantified over by the spec claims. -/
inductive TOp (α : Type) where
  | add (r : α)
  | set (k : JsKey) (r : Option α)

def Table.applyOp (t : Table α) : TOp α → Table α
  | .add r => t.add r
  | .set k r => t.set k r

def Table.applyOps (t : Table α) (ops : List (TOp α)) : Table α :=
  ops.foldl Table.applyOp t

/-- The round trip of the spec's claim: serialize the table, then
bulk-ingest the result into a fresh table of the same mode with the same
schema functions. -/
def Table.roundTrip (t : Table α) : Table α :=
  (Table.create
      (match t.content with | .keyed _ => true | .indexed _ _ => false)
      t.schemaFromJson t.schemaToJson t.keyOf).bulkIngest t.toJson.1

/-- The well-formedness the round trip needs: keyed entries are stored
under their record's own key, with the distinct keys every JS object
guarantees; indexed content has no holes and no expando properties. -/
def TableInv (t : Table α) : Prop :=
  match t.content with
  | .keyed m => (∀ p ∈ m, p.1 = t.keyOf p.2) ∧ (m.map Prod.fst).Nodup
  | .indexed l ex => (∀ o ∈ l, o.isSome = true) ∧ ex = []

/-- A mutating call that keeps a table well-formed: any `add`; on a
keyed table, a string-keyed `set` whose key is the record's own key, or
a string-keyed deletion; on an indexed table, an in-range non-null
numeric `set`. -/
def GoodOp (t : Table α) : TOp α → Prop
  | .add _ => True
  | .set (.str k) (some r) => (∃ m, t.content = .keyed m) ∧ t.keyOf r = k
  | .set (.str _) none => ∃ m, t.content = .keyed m
  | .set (.num i) (some _) => ∃ l ex, t.content = .indexed l ex ∧ i < l.length
  | .set (.num _) none => False

/-- A sequence of mutating calls that is well-formed at every step. -/
inductive GoodOps : Table α → List (TOp α) → Prop where
  | nil (t : Table α) : GoodOps t []
  | cons (t : Table α) (op : TOp α) (ops : List (TOp α)) :
      GoodOp t op → GoodOps (t.applyOp op) ops → GoodOps t (op :: ops)

/-! ### Database -/

def S_SHOULD_SAVE : Nat := 1
def S_CLOSED : Nat := 2
def S_STARTED : Nat := 4

/-- The 32-bit JS bitwise NOT, on the two's-complement bit pattern. -/
def jsNot32 (x : Nat) : Nat := 0xFFFFFFFF ^^^ x

/-- Minimal JSON character escaping (backslash and double quote; the
data in this development contains no control characters). -/
def escapeChars : List Char → List Char
  | [] => []
  | c :: cs =>
      (if c = '\\' then ['\\', '\\']
       else if c = '"' then ['\\', '"'] else [c]) ++ escapeChars cs

/-- Minimal JSON string escaping, character by character. -/
def escapeString (s : String) : String := String.mk (escapeChars s.data)

mutual
/-- Model of `JSON.stringify` as called in `Database.save`, with the replacer
`(k, v) => typeof v.toJson === "function" ? v.toJson() : v`.  By this
point every table has been replaced by its `toJson()` output (see
`Database.serializeDoc`); on every remaining value the replacer first
dereferences `value.toJson`, so visiting a JSON null throws a
TypeError. -/
def stringifyJson : JSON → Except String String
  | .str s => .ok ("\"" ++ escapeString s ++ "\"")
  | .num n => .ok (toString n)
  | .bool b => .ok (if b then "true" else "false")
  | .null => .error "TypeError: Cannot read properties of null (reading 'toJson')"
  | .arr l => do
      let parts ← stringifyJsonList l
      .ok ("[" ++ String.intercalate "," parts ++ "]")
  | .obj m => do
      let parts ← stringifyJsonFields m
      .ok ("\x7b" ++ String.intercalate "," parts ++ "\x7d")

def stringifyJsonList : List JSON → Except String (List String)
  | [] => .ok []
  | x :: xs => do
      let s ← stringifyJson x
      let rest ← stringifyJsonList xs
      .ok (s :: rest)

def stringifyJsonFields : List (String × JSON) → Except String (List String)
  | [] => .ok []
  | (k, v) :: xs => do
      let s ← stringifyJson v
      let rest ← stringifyJsonFields xs
      .ok (("\"" ++ escapeString k ++ "\":" ++ s) :: rest)
end

/-- Model of `FileHandle.write(buf, 0, buf.length, 0)`: overlay the whole buffer
at file offset 0. -/
def fileWrite0 (old buf : List Char) : List Char :=
  buf ++ old.drop buf.length

/-- Model of `FileHandle.truncate(len)`: cut to `len` bytes, NUL-padding when the
file was shorter. -/
def fileTruncate (old : List Char) (len : Nat) : List Char :=
  old.take len ++ List.replicate (len - old.length) (Char.ofNat 0)

/-- src/Database.ts `Database`.  `state` is the packed 32-bit flag word
(S_SHOULD_SAVE = 1, S_CLOSED = 2, S_STARTED = 4).  `fileOpen` models the
optional `FileHandle`; `fileContents` is the backing file's byte content
(it persists after the handle closes — it is the disk state).
`closeListenerArmed` records whether the `once("close")` listener that
the `once("ready")` handler registers (only when `autosave ≠ 0`) is
still pending. -/
structure Database (α : Type) where
  path : String
  autosave : Nat
  state : Nat
  fileOpen : Bool
  fileContents : List Char
  tables : List (String × Table α)
  isSaving : Bool
  closeListenerArmed : Bool

/-- The `Database` constructor:
`state = ~S_SHOULD_SAVE & ~S_CLOSED & ~S_STARTED` — every flag bit
clear, every other bit of the 32-bit word set. -/
def Database.create (path : String) (autosave : Nat) : Database α :=
  { path := path
    autosave := autosave
    state := jsNot32 S_SHOULD_SAVE &&& jsNot32 S_CLOSED &&& jsNot32 S_STARTED
    fileOpen := false
    fileContents := []
    tables := []
    isSaving := false
    closeListenerArmed := false }

def Database.shouldSave (db : Database α) : Bool :=
  getCheckBitmap db.state S_SHOULD_SAVE

def Database.setShouldSave (db : Database α) (b : Bool) : Database α :=
  if b then { db with state := db.state ||| S_SHOULD_SAVE }
  else { db with state := db.state &&& jsNot32 S_SHOULD_SAVE }

def Database.started (db : Database α) : Bool :=
  getCheckBitmap db.state S_STARTED

def Database.setStarted (db : Database α) (b : Bool) : Database α :=
  if b then { db with state := db.state ||| S_STARTED }
  else { db with state := db.state &&& jsNot32 S_STARTED }

def Database.closed (db : Database α) : Bool :=
  getCheckBitmap db.state S_CLOSED

def Database.setClosed (db : Database α) (b : Bool) : Database α :=
  if b then { db with state := db.state ||| S_CLOSED }
  else { db with state := db.state &&& jsNot32 S_CLOSED }

/-- The document built by `Database.save`'s
`JSON.stringify(this.content, replacer)` walk: each table is replaced by
its `toJson()` output.  `toJson` caches, so the walked tables come back
updated; a throw mid-walk would leave later tables unvisited, which no
claim observes, so the updates are modelled up front. -/
def Database.serializeDoc (db : Database α) :
    JSON × List (String × Table α) :=
  let pairs := db.tables.map (fun p => (p.1, p.2.toJson))
  (.obj [("tables", .obj (pairs.map (fun p => (p.1, p.2.1))))],
   pairs.map (fun p => (p.1, p.2.2)))

/-- Model of `Database.save`: guarded by `shouldSave && !isSaving`; claims the
guard, clears the dirty bit, stringifies the document, writes the buffer
at offset 0 and truncates the file to the buffer length.  If the
stringify throws (a JSON null reached by the replacer), the guard stays
claimed and the file is untouched.  The write and truncate are issued in
program order (the source does not await them; cooperative single-flow
scheduling is assumed, as no suspension point separates them). -/
def Database.save (db : Database α) : Database α × Except String Unit :=
  if db.shouldSave && !db.isSaving then
    let db1 := ({ db with isSaving := true } : Database α).setShouldSave false
    let (doc, tables1) := db1.serializeDoc
    let db2 := { db1 with tables := tables1 }
    match stringifyJson doc with
    | .error e => (db2, .error e)
    | .ok s =>
      let buf := s.data
      let db3 :=
        if db2.fileOpen then
          { db2 with
              fileContents := fileTruncate (fileWrite0 db2.fileContents buf) buf.length }
        else db2
      ({ db3 with isSaving := false }, .ok ())
  else (db, .ok ())

/-- Model of `Database.close`: `emit("close")` — when the `once("ready")` handler
armed the close listener (autosave ≠ 0 and start completed), that
listener (checking `!this.closed`) forces `shouldSave = true`, calls
`save()`, clears the one-shot autosave timer and resets `shouldSave` —
then the file handle is closed, `started` cleared and `closed` set. -/
def Database.close (db : Database α) : Database α :=
  let db :=
    if db.closeListenerArmed then
      let db := { db with closeListenerArmed := false }
      if !db.closed then
        let db := db.setShouldSave true
        let db := db.save.1
        (db.setShouldSave false)
      else db
    else db
  let db := { db with fileOpen := false }
  ((db.setStarted false).setClosed true)

/-- Model of `Database.setShouldSaveToTrue` as the source intends it — but see
`Table.stateChange`: registered unbound, it never executes against the
database. -/
def Database.setShouldSaveToTrue (db : Database α) : Database α :=
  db.setShouldSave true

/-- Model of `Database.addTable`: before start, registers the table and attaches
the (unbound) `setShouldSaveToTrue` stateChange listener to it; after
start, throws. -/
def Database.addTable (db : Database α) (key : String) (table : Table α) :
    Database α × Except String (Table α) :=
  if !db.started then
    let t := { table with hasDbListener := true }
    ({ db with tables := objSet db.tables key t }, .ok t)
  else (db, .error "Cannot modify tables after database started!")

/-- Model of `Database.deleteTable`: before start, reads the entry, deletes the
key, then calls `table.off(...)` — which throws a TypeError when the
name was absent, because `table` is undefined; after start, throws the
lifecycle error. -/
def Database.deleteTable (db : Database α) (key : String) :
    Database α × Except String (Option (Table α)) :=
  if !db.started then
    match objGet db.tables key with
    | none =>
        ({ db with tables := objDelete db.tables key },
         .error "TypeError: Cannot read properties of undefined (reading 'off')")
    | some t =>
        ({ db with tables := objDelete db.tables key },
         .ok (some { t with hasDbListener := false }))
  else (db, .error "Cannot modify tables after database started!")

def Database.getTable (db : Database α) (key : String) : Option (Table α) :=
  objGet db.tables key

def Database.hasTable (db : Database α) (key : String) : Bool :=
  objHas db.tables key

/-- A host call `db.getTable(name)` followed by a mutating call on the
returned table: the table mutates and its stateChange listeners run
(`Table.stateChange`).  Nothing on the database changes, because the
`setShouldSaveToTrue` listener executes with `this` bound to the
emitting table. -/
def Database.tableMutate (db : Database α) (name : String) (op : TOp α) :
    Database α :=
  match objGet db.tables name with
  | none => db
  | some t => { db with tables := objSet db.tables name (t.applyOp op) }

/-- The filesystem environment a `start()` call runs against: outcomes
of the stat/ensureFile/chmod/writeFile/access calls, and the existing
file's raw bytes and parsed JSON (used only when the file exists). -/
structure FsEnv where
  fileExists : Bool
  ensureFileOk : Bool
  chmodOk : Bool
  writeFileOk : Bool
  readable : Bool
  writable : Bool
  initialRaw : List Char
  initialParsed : JSON

/-- The default document `{"tables":{}}` written on file creation. -/
def defaultFileContent : String := "\x7b\"tables\":\x7b\x7d\x7d"

def defaultParsed : JSON := .obj [("tables", .obj [])]

/-- The stat/ensureFile/chmod/writeFile block of `Database.start`: each
inner failure calls `close()` and throws its stage-specific message —
but every such throw lands in the enclosing try's catch (see
`Database.start`). -/
def Database.startCreateStage (db : Database α) (env : FsEnv) :
    Database α × Except String (List Char × JSON) :=
  if env.fileExists then (db, .ok (env.initialRaw, env.initialParsed))
  else if !env.ensureFileOk then
    (db.close,
     .error ("Error while creating file '" ++ db.path ++ "': Cannot ensure file exists!"))
  else if !env.chmodOk then
    (db.close,
     .error ("Error while creating file '" ++ db.path ++ "': Cannot make file read/write!"))
  else if !env.writeFileOk then
    (db.close,
     .error ("Error while creating file '" ++ db.path ++ "': Cannot write to file!"))
  else (db, .ok (defaultFileContent.data, defaultParsed))

/-- The hydration loop of `Database.start`: for every table name in the
parsed document's `tables` object that is also registered, bulk-ingest
its JSON into the registered table. -/
def Database.hydrate (db : Database α) (parsed : JSON) : Database α :=
  let entries :=
    match parsed with
    | .obj fields =>
        match objGet fields "tables" with
        | some (.obj ts) => ts
        | _ => []
    | _ => []
  entries.foldl (fun acc p =>
    match objGet acc.tables p.1 with
    | none => acc
    | some t => { acc with tables := objSet acc.tables p.1 (t.bulkIngest p.2) }) db

/-- Model of `Database.start`.  The outer try/catch around the creation stage
replaces any stage-specific error with the one generic message, after a
second `close()`.  Then: the two access checks (each with its own
error), mark started, open the file, hydrate every registered table
present in the parsed document, set the dirty bit, save, and
`emit("ready")` — whose once-listener arms the autosave machinery (the
one-shot timer and the `once("close")` flush listener) when
`autosave ≠ 0`. -/
def Database.start (db : Database α) (env : FsEnv) :
    Database α × Except String Unit :=
  match db.startCreateStage env with
  | (db, .error _) =>
      (db.close, .error ("Cannot create file '" ++ db.path ++ "'!"))
  | (db, .ok (raw, parsed)) =>
      if !env.readable then
        (db.close, .error ("File '" ++ db.path ++ "' is not readable!"))
      else if !env.writable then
        (db.close, .error ("File '" ++ db.path ++ "' is not writable!"))
      else
        let db := db.setStarted true
        let db := { db with fileOpen := true, fileContents := raw }
        let db := db.hydrate parsed
        let db := db.setShouldSave true
        let db := db.save.1
        let db := if db.autosave ≠ 0 then { db with closeListenerArmed := true } else db
        (db, .ok ())

/-! ### Concrete instances used by the claim theorems

A concrete record schema: a record is a (key, value) pair serialized as
`{"key": ..., "v": ...}`; `fromJson` and `toJson` are mutually
inverse. -/

def recToJson : String × Int → JSON :=
  fun r => .obj [("key", .str r.1), ("v", .num r.2)]

def recFromJson : JSON → String × Int := fun j =>
  match j with
  | .obj [("key", .str k), ("v", .num v)] => (k, v)
  | _ => ("", 0)

/-- A keyed table over the concrete schema, as built by
`new Table(true, recFromJson, recToJson)` on records exposing `key`. -/
def recTable : Table (String × Int) := Table.create true recFromJson recToJson Prod.fst

/-- A healthy filesystem for a path that does not exist yet: every
creation sub-step and both access checks succeed. -/
def env0 : FsEnv :=
  { fileExists := false, ensureFileOk := true, chmodOk := true, writeFileOk := true,
    readable := true, writable := true, initialRaw := [], initialParsed := .null }

def envEnsureFail : FsEnv := { env0 with ensureFileOk := false }

def envChmodFail : FsEnv := { env0 with chmodOk := false }

def envWriteFail : FsEnv := { env0 with writeFileOk := false }

/-- Result of `new Database({path:"db.json", autosave:0})`, a table registered via
`addTable`, then `table.add({key:"a", v:1})` on the registered table. -/
def c1Db : Database (String × Int) :=
  (((Database.create "db.json" 0).addTable "users" recTable).1).tableMutate
    "users" (.add ("a", 1))

/-- A database with one registered (empty, keyed) table `"t"`, started
against `env0` with `autosave = 0`. -/
def c4Started : Database (String × Int) :=
  ((((Database.create "p" 0).addTable "t" recTable).1).start env0).1

/-- State after `c4Started`, then `table.add({key:"a", v:5})`, then `close()`. -/
def c4Closed : Database (String × Int) :=
  (c4Started.tableMutate "t" (.add ("a", 5))).close

/-- The document the initial save writes for `c4Started`:
one registered table `"t"`, still empty. -/
def c4SavedDoc : String := "\x7b\"tables\":\x7b\"t\":\x7b\x7d\x7d\x7d"

/-- A not-yet-started database with one table registered under `"t"`. -/
def c7Before : Database (String × Int) :=
  ((Database.create "p" 0).addTable "t" recTable).1

/-- State of `c7Before` after a successful `start()`. -/
def c7Started : Database (String × Int) := (c7Before.start env0).1

/-- How many entries of an association list sit under key `k` (the
number of `(k, _)` entries a JS object would expose — always 0 or 1 for
genuine JS objects). -/
def countKey (m : List (String × α)) (k : String) : Nat :=
  (m.filter (fun p => p.1 == k)).length

/-- An indexed table holding a single hole, as left by `add` followed by
`set(0, null)`; its serialization is `[null]`. -/
def holeTable : Table (String × Int) :=
  ((Table.create false recFromJson recToJson Prod.fst).add ("a", 1)).set (.num 0) none

/-- A started, dirty database (dirty and started bits set by hand in the
state word) whose single registered table serializes to `[null]`. -/
def c5BadDb : Database (String × Int) :=
  { path := "p"
    autosave := 0
    state := (jsNot32 S_SHOULD_SAVE &&& jsNot32 S_CLOSED &&& jsNot32 S_STARTED)
      ||| S_SHOULD_SAVE ||| S_STARTED
    fileOpen := true
    fileContents := "old".data
    tables := [("t", holeTable)]
    isSaving := false
    closeListenerArmed := false }

/-- A started, dirty database holding one keyed record, with longer
stale bytes in the backing file (so the truncation matters). -/
def c5GoodDb : Database (String × Int) :=
  { path := "p"
    autosave := 0
    state := (jsNot32 S_SHOULD_SAVE &&& jsNot32 S_CLOSED &&& jsNot32 S_STARTED)
      ||| S_SHOULD_SAVE ||| S_STARTED
    fileOpen := true
    fileContents := "previous, much longer, stale file content........".data
    tables := [("t", { recTable with content := .keyed [("a", ("a", 1))] })]
    isSaving := false
    closeListenerArmed := false }

/-- The document `c5GoodDb` serializes to. -/
def c5GoodDoc : String :=
  "\x7b\"tables\":\x7b\"t\":\x7b\"a\":\x7b\"key\":\"a\",\"v\":1\x7d\x7d\x7d\x7d"

/-- A keyed table where `set` stored two distinct records — both with
`key` field `"x"` — under the unrelated storage keys `"a"` and `"b"`. -/
def c9Table : Table (String × Int) :=
  recTable.applyOps
    [.set (.str "a") (some ("x", 1)), .set (.str "b") (some ("x", 2))]

end PatchDb

/-! ## Helper lemmas -/

namespace PatchDb

@[simp]
theorem Table.stateChange_content (t : Table α) :
    t.stateChange.content = t.content := by
  unfold Table.stateChange
  by_cases h : t.hasDbListener <;> simp [h]

@[simp]
theorem Table.stateChange_keyOf (t : Table α) :
    t.stateChange.keyOf = t.keyOf := by
  unfold Table.stateChange
  by_cases h : t.hasDbListener <;> simp [h]

@[simp]
theorem Table.stateChange_schemaToJson (t : Table α) :
    t.stateChange.schemaToJson = t.schemaToJson := by
  unfold Table.stateChange
  by_cases h : t.hasDbListener <;> simp [h]

@[simp]
theorem Table.stateChange_schemaFromJson (t : Table α) :
    t.stateChange.schemaFromJson = t.schemaFromJson := by
  unfold Table.stateChange
  by_cases h : t.hasDbListener <;> simp [h]

@[simp]
theorem Table.stateChange_shouldUseCache (t : Table α) :
    t.stateChange.shouldUseCache = false := by
  unfold Table.stateChange
  by_cases h : t.hasDbListener <;> simp [h]

theorem Table.add_content_keyed (t : Table α) (m : List (String × α)) (r : α)
    (h : t.content = .keyed m) :
    (t.add r).content = .keyed (objSet m (t.keyOf r) r) := by
  simp [Table.add, h]

theorem Table.add_content_indexed (t : Table α) (l : List (Option α))
    (ex : List (String × α)) (r : α) (h : t.content = .indexed l ex) :
    (t.add r).content = .indexed (l ++ [some r]) ex := by
  simp [Table.add, h]

@[simp]
theorem Table.add_keyOf (t : Table α) (r : α) : (t.add r).keyOf = t.keyOf := by
  unfold Table.add
  cases h : t.content <;> simp

theorem Table.get_keyed (t : Table α) (m : List (String × α)) (k : String)
    (h : t.content = .keyed m) : t.get (.str k) = objGet m k := by
  simp [Table.get, h]

theorem find?_map_replace (m : List (String × α)) (k : String) (v : α)
    (h : m.any (fun p => p.1 == k) = true) :
    (m.map (fun p => if p.1 == k then (k, v) else p)).find? (fun p => p.1 == k)
      = some (k, v) := by
  induction m with
  | nil => simp at h
  | cons p m ih =>
    rw [List.map_cons]
    by_cases hp : (p.1 == k) = true
    · rw [if_pos hp]
      simp
    · rw [if_neg hp, List.find?_cons, eq_false_of_ne_true hp]
      apply ih
      rw [List.any_cons, Bool.or_eq_true] at h
      rcases h with h | h
      · exact absurd h hp
      · exact h

theorem find?_append_of_not_has (m : List (String × α)) (k : String) (v : α)
    (h : m.any (fun p => p.1 == k) = false) :
    (m ++ [(k, v)]).find? (fun p => p.1 == k) = some (k, v) := by
  induction m with
  | nil => simp
  | cons p m ih =>
    rw [List.any_cons, Bool.or_eq_false_iff] at h
    rw [List.cons_append, List.find?_cons, h.1]
    exact ih h.2

/-- Writing a key and reading it back yields the written value (no
distinct-keys assumption needed: the in-place rewrite rewrites every
entry under the key, and `find?` returns the first). -/
theorem objGet_objSet_self (m : List (String × α)) (k : String) (v : α) :
    objGet (objSet m k v) k = some v := by
  unfold objSet objGet
  by_cases h : m.any (fun p => p.1 == k) = true
  · rw [if_pos h, find?_map_replace m k v h]
    rfl
  · rw [if_neg h, find?_append_of_not_has m k v (eq_false_of_ne_true h)]
    rfl

theorem countKey_map_replace (m : List (String × α)) (k : String) (v : α) :
    countKey (m.map (fun p => if p.1 == k then (k, v) else p)) k = countKey m k := by
  induction m with
  | nil => rfl
  | cons p m ih =>
    by_cases hp : p.1 == k
    · simp [countKey, List.filter, hp] at ih ⊢
      exact ih
    · simp [countKey, List.filter, hp] at ih ⊢
      exact ih

theorem countKey_of_not_has (m : List (String × α)) (k : String)
    (h : m.any (fun p => p.1 == k) = false) : countKey m k = 0 := by
  unfold countKey
  have hall := List.any_eq_false.1 h
  rw [List.filter_eq_nil_iff.2 (fun p hp => by simpa using hall p hp)]
  rfl

theorem countKey_eq_count_map_fst (m : List (String × α)) (k : String) :
    countKey m k = (m.map Prod.fst).count k := by
  unfold countKey
  rw [List.count, List.countP_map, ← List.countP_eq_length_filter]
  rfl

theorem countKey_le_one_of_nodup (m : List (String × α)) (k : String)
    (h : (m.map Prod.fst).Nodup) : countKey m k ≤ 1 := by
  rw [countKey_eq_count_map_fst]
  exact List.nodup_iff_count_le_one.1 h k

theorem countKey_pos_of_has (m : List (String × α)) (k : String)
    (h : m.any (fun p => p.1 == k) = true) : 1 ≤ countKey m k := by
  rw [countKey_eq_count_map_fst]
  have hk : k ∈ m.map Prod.fst := by
    simp only [List.any_eq_true] at h
    obtain ⟨p, hp, he⟩ := h
    exact List.mem_map.2 ⟨p, hp, by simpa using he⟩
  exact List.count_pos_iff.2 hk

/-- Writing any key into an object with (JS-guaranteed) distinct keys
leaves exactly one entry under that key. -/
theorem countKey_objSet (m : List (String × α)) (k : String) (v : α)
    (h : (m.map Prod.fst).Nodup) : countKey (objSet m k v) k = 1 := by
  unfold objSet
  by_cases hh : m.any (fun p => p.1 == k)
  · rw [if_pos hh, countKey_map_replace]
    exact le_antisymm (countKey_le_one_of_nodup m k h) (countKey_pos_of_has m k hh)
  · rw [if_neg hh]
    have h0 := countKey_of_not_has m k (eq_false_of_ne_true hh)
    unfold countKey at h0 ⊢
    rw [List.filter_append, List.length_append, h0]
    simp [List.filter]

theorem objSet_map_fst_of_has (m : List (String × α)) (k : String) (v : α)
    (h : m.any (fun p => p.1 == k) = true) :
    (objSet m k v).map Prod.fst = m.map Prod.fst := by
  unfold objSet
  rw [if_pos h, List.map_map]
  apply List.map_congr_left
  intro p _
  by_cases hp : p.1 = k
  · simp [hp]
  · simp [hp]

theorem objSet_of_not_has (m : List (String × α)) (k : String) (v : α)
    (h : m.any (fun p => p.1 == k) = false) :
    objSet m k v = m ++ [(k, v)] := by
  unfold objSet
  rw [if_neg (by simp [h])]

/-- A JS property write preserves distinctness of the keys. -/
theorem objSet_nodup_keys (m : List (String × α)) (k : String) (v : α)
    (h : (m.map Prod.fst).Nodup) : ((objSet m k v).map Prod.fst).Nodup := by
  by_cases hh : m.any (fun p => p.1 == k)
  · rw [objSet_map_fst_of_has m k v hh]
    exact h
  · rw [objSet_of_not_has m k v (eq_false_of_ne_true hh)]
    have hk : k ∉ m.map Prod.fst := by
      intro hmem
      obtain ⟨p, hp, he⟩ := List.mem_map.1 hmem
      have : m.any (fun q => q.1 == k) = true :=
        List.any_eq_true.2 ⟨p, hp, by simp [he]⟩
      exact hh this
    simp [List.nodup_append, h, hk]

/-- An overlay write of the whole buffer at offset 0 followed by a
truncation to the buffer's length yields exactly the buffer, whatever
the previous file contents were. -/
theorem fileTruncate_fileWrite0 (old buf : List Char) :
    fileTruncate (fileWrite0 old buf) buf.length = buf := by
  unfold fileWrite0 fileTruncate
  have hlen : buf.length ≤ (buf ++ old.drop buf.length).length := by
    rw [List.length_append]
    omega
  rw [List.take_left, Nat.sub_eq_zero_of_le hlen, List.replicate_zero,
    List.append_nil]

/-- Lemma: `save` stringifies the document of the database as it was when the
guard was claimed: the flag updates do not touch the tables. -/
theorem Database.save_pre_serializeDoc (db : Database α) :
    (({ db with isSaving := true } : Database α).setShouldSave false).serializeDoc
      = db.serializeDoc := rfl

@[simp]
theorem Database.setShouldSave_fileOpen (db : Database α) (b : Bool) :
    (db.setShouldSave b).fileOpen = db.fileOpen := by
  unfold Database.setShouldSave
  cases b <;> rfl

@[simp]
theorem Database.setShouldSave_fileContents (db : Database α) (b : Bool) :
    (db.setShouldSave b).fileContents = db.fileContents := by
  unfold Database.setShouldSave
  cases b <;> rfl

@[simp]
theorem Database.setShouldSave_tables (db : Database α) (b : Bool) :
    (db.setShouldSave b).tables = db.tables := by
  unfold Database.setShouldSave
  cases b <;> rfl

@[simp]
theorem Table.applyOp_shouldUseCache (t : Table α) (op : TOp α) :
    (t.applyOp op).shouldUseCache = false := by
  cases op with
  | add r => cases h : t.content <;> simp [Table.applyOp, Table.add, h]
  | set k r =>
      cases r <;> cases k <;> cases h : t.content <;>
        simp [Table.applyOp, Table.set, h]

/-- After a `toJson` call the cache flag is set and the cache holds
exactly the returned value. -/
theorem Table.toJson_snd_cache (t : Table α) :
    (t.toJson.2).shouldUseCache = true
      ∧ (t.toJson.2).cachedContentJson = some t.toJson.1 := by
  unfold Table.toJson
  cases hs : t.shouldUseCache <;> cases hc : t.cachedContentJson <;> simp [hs, hc]

/-- With the cache flag clear, `toJson` recomputes from the content. -/
theorem Table.toJson_of_invalid_cache (t : Table α) (h : t.shouldUseCache = false) :
    t.toJson.1 = t.contentToJson := by
  cases hc : t.cachedContentJson <;> simp [Table.toJson, h, hc]

/-- With the cache flag set and a cached value present, `toJson` is a
pure cache hit. -/
theorem Table.toJson_of_valid_cache (t : Table α) (j : JSON)
    (hs : t.shouldUseCache = true) (hc : t.cachedContentJson = some j) :
    t.toJson = (j, t) := by
  simp [Table.toJson, hs, hc]

@[simp]
theorem Table.add_schemaFromJson (t : Table α) (r : α) :
    (t.add r).schemaFromJson = t.schemaFromJson := by
  unfold Table.add
  cases h : t.content <;> simp

@[simp]
theorem Table.add_schemaToJson (t : Table α) (r : α) :
    (t.add r).schemaToJson = t.schemaToJson := by
  unfold Table.add
  cases h : t.content <;> simp

@[simp]
theorem Table.applyOp_keyOf (t : Table α) (op : TOp α) :
    (t.applyOp op).keyOf = t.keyOf := by
  cases op with
  | add r => simp [Table.applyOp]
  | set k r =>
      cases r <;> cases k <;> cases h : t.content <;>
        simp [Table.applyOp, Table.set, h]

@[simp]
theorem Table.applyOp_schemaFromJson (t : Table α) (op : TOp α) :
    (t.applyOp op).schemaFromJson = t.schemaFromJson := by
  cases op with
  | add r => simp [Table.applyOp]
  | set k r =>
      cases r <;> cases k <;> cases h : t.content <;>
        simp [Table.applyOp, Table.set, h]

@[simp]
theorem Table.applyOp_schemaToJson (t : Table α) (op : TOp α) :
    (t.applyOp op).schemaToJson = t.schemaToJson := by
  cases op with
  | add r => simp [Table.applyOp]
  | set k r =>
      cases r <;> cases k <;> cases h : t.content <;>
        simp [Table.applyOp, Table.set, h]

theorem Table.applyOps_cons (t : Table α) (op : TOp α) (ops : List (TOp α)) :
    t.applyOps (op :: ops) = (t.applyOp op).applyOps ops := rfl

theorem Table.applyOps_keyOf (t : Table α) (ops : List (TOp α)) :
    (t.applyOps ops).keyOf = t.keyOf := by
  induction ops generalizing t with
  | nil => rfl
  | cons op ops ih =>
      rw [Table.applyOps_cons]
      rw [ih (t.applyOp op)]
      simp

theorem Table.applyOps_schemaFromJson (t : Table α) (ops : List (TOp α)) :
    (t.applyOps ops).schemaFromJson = t.schemaFromJson := by
  induction ops generalizing t with
  | nil => rfl
  | cons op ops ih =>
      rw [Table.applyOps_cons, ih (t.applyOp op)]
      simp

theorem Table.applyOps_schemaToJson (t : Table α) (ops : List (TOp α)) :
    (t.applyOps ops).schemaToJson = t.schemaToJson := by
  induction ops generalizing t with
  | nil => rfl
  | cons op ops ih =>
      rw [Table.applyOps_cons, ih (t.applyOp op)]
      simp

theorem Table.applyOps_shouldUseCache (t : Table α) (ops : List (TOp α))
    (h : t.shouldUseCache = false) : (t.applyOps ops).shouldUseCache = false := by
  induction ops generalizing t with
  | nil => exact h
  | cons op ops ih =>
      rw [Table.applyOps_cons]
      exact ih (t.applyOp op) (by simp)

/-- Every entry of `objSet m k v` is an old entry or the fresh
`(k, v)`. -/
theorem objSet_forall (m : List (String × α)) (k : String) (v : α)
    (P : String × α → Prop) (h : ∀ p ∈ m, P p) (hkv : P (k, v)) :
    ∀ p ∈ objSet m k v, P p := by
  unfold objSet
  by_cases hh : m.any (fun p => p.1 == k) = true
  · rw [if_pos hh]
    intro p hp
    obtain ⟨q, hq, he⟩ := List.mem_map.1 hp
    by_cases hq1 : (q.1 == k) = true
    · rw [if_pos hq1] at he
      exact he ▸ hkv
    · rw [if_neg hq1] at he
      exact he ▸ h q hq
  · rw [if_neg hh]
    intro p hp
    rcases List.mem_append.1 hp with hp | hp
    · exact h p hp
    · rw [List.mem_singleton.1 hp]
      exact hkv

theorem not_has_of_not_mem_keys (m : List (String × α)) (k : String)
    (h : k ∉ m.map Prod.fst) : m.any (fun p => p.1 == k) = false := by
  rw [List.any_eq_false]
  intro p hp
  simp only [beq_iff_eq]
  intro he
  exact h (List.mem_map.2 ⟨p, hp, he⟩)

/-- Folding `add` over records on an array table appends them in
order. -/
theorem Table.addAll_indexed (t : Table α) (l : List (Option α))
    (ex : List (String × α)) (rs : List α) (h : t.content = .indexed l ex) :
    (rs.foldl Table.add t).content = .indexed (l ++ rs.map some) ex := by
  induction rs generalizing t l with
  | nil => simpa using h
  | cons r rs ih =>
      rw [List.foldl_cons]
      rw [ih (t.add r) (l ++ [some r]) (Table.add_content_indexed t l ex r h)]
      simp

/-- Folding `add` over records with pairwise-fresh keys on a keyed table
appends each record under its own key, in order. -/
theorem Table.addAll_keyed (t : Table α) (m : List (String × α)) (rs : List α)
    (h : t.content = .keyed m)
    (hn : (m.map Prod.fst ++ rs.map t.keyOf).Nodup) :
    (rs.foldl Table.add t).content
      = .keyed (m ++ rs.map (fun r => (t.keyOf r, r))) := by
  induction rs generalizing t m with
  | nil => simpa using h
  | cons r rs ih =>
      rw [List.map_cons] at hn
      have hnotmem : t.keyOf r ∉ m.map Prod.fst := by
        intro hmem
        exact (List.nodup_append.1 hn).2.2 hmem (by simp)
      have h1 : (t.add r).content = .keyed (m ++ [(t.keyOf r, r)]) := by
        rw [Table.add_content_keyed t m r h,
          objSet_of_not_has m (t.keyOf r) r (not_has_of_not_mem_keys m _ hnotmem)]
      have hn1 : ((m ++ [(t.keyOf r, r)]).map Prod.fst
          ++ rs.map (t.add r).keyOf).Nodup := by
        rw [Table.add_keyOf]
        simpa [List.append_assoc] using hn
      have h2 := ih (t.add r) (m ++ [(t.keyOf r, r)]) h1 hn1
      simp only [Table.add_keyOf] at h2
      rw [List.foldl_cons, h2]
      simp

/-- Folding the object-valued ingestion step equals folding `add` over
the property values. -/
theorem Table.foldl_add_values (t0 : Table α) (m : List (String × α)) :
    m.foldl (fun acc p => acc.add p.2) t0 = (m.map Prod.snd).foldl Table.add t0 := by
  induction m generalizing t0 with
  | nil => rfl
  | cons p m ih => simp [List.foldl_cons, ih]

theorem objHas_objSet_self (m : List (String × α)) (k : String) (v : α) :
    (objSet m k v).any (fun p => p.1 == k) = true := by
  have hg := objGet_objSet_self m k v
  unfold objGet at hg
  cases hf : (objSet m k v).find? (fun p => p.1 == k) with
  | none => rw [hf] at hg; simp at hg
  | some q =>
    have hq := List.find?_some hf
    exact List.any_eq_true.2 ⟨q, List.mem_of_find?_eq_some hf, hq⟩

/-- Any mutating call on an array-mode table leaves it in array mode. -/
theorem Table.applyOp_indexed (t : Table α) (op : TOp α)
    (l : List (Option α)) (ex : List (String × α))
    (h : t.content = .indexed l ex) :
    ∃ l2 ex2, (t.applyOp op).content = .indexed l2 ex2 := by
  cases op with
  | add r => exact ⟨l ++ [some r], ex, Table.add_content_indexed t l ex r h⟩
  | set k r =>
    cases r with
    | none =>
      cases k with
      | num n => exact ⟨arrDelete l n, ex, by simp [Table.applyOp, Table.set, h]⟩
      | str s => exact ⟨l, objDelete ex s, by simp [Table.applyOp, Table.set, h]⟩
    | some v =>
      cases k with
      | num n => exact ⟨arrSet l n v, ex, by simp [Table.applyOp, Table.set, h]⟩
      | str s => exact ⟨l, objSet ex s v, by simp [Table.applyOp, Table.set, h]⟩

theorem Table.applyOps_indexed (t : Table α) (ops : List (TOp α))
    (l : List (Option α)) (ex : List (String × α))
    (h : t.content = .indexed l ex) :
    ∃ l2 ex2, (t.applyOps ops).content = .indexed l2 ex2 := by
  induction ops generalizing t l ex with
  | nil => exact ⟨l, ex, h⟩
  | cons op ops ih =>
      obtain ⟨l2, ex2, h2⟩ := Table.applyOp_indexed t op l ex h
      rw [Table.applyOps_cons]
      exact ih (t.applyOp op) l2 ex2 h2

/-- A well-formed mutating call preserves the table invariant. -/
theorem TableInv.applyOp (t : Table α) (op : TOp α)
    (hinv : TableInv t) (hop : GoodOp t op) : TableInv (t.applyOp op) := by
  cases op with
  | add r =>
    rcases hc : t.content with m | ⟨l, ex⟩
    · obtain ⟨hkeys, hnodup⟩ : (∀ p ∈ m, p.1 = t.keyOf p.2) ∧ (m.map Prod.fst).Nodup := by
        simpa [TableInv, hc] using hinv
      have h1 := Table.add_content_keyed t m r hc
      simp only [TableInv, Table.applyOp, h1, Table.add_keyOf]
      exact ⟨objSet_forall m (t.keyOf r) r _ hkeys rfl,
        objSet_nodup_keys m (t.keyOf r) r hnodup⟩
    · obtain ⟨hsome, hex⟩ : (∀ o ∈ l, o.isSome = true) ∧ ex = [] := by
        simpa [TableInv, hc] using hinv
      have h1 := Table.add_content_indexed t l ex r hc
      simp only [TableInv, Table.applyOp, h1]
      refine ⟨?_, hex⟩
      intro o ho
      rcases List.mem_append.1 ho with ho | ho
      · exact hsome o ho
      · rw [List.mem_singleton.1 ho]
        rfl
  | set k r =>
    cases k with
    | str s =>
      cases r with
      | none =>
        obtain ⟨m, hc⟩ := hop
        obtain ⟨hkeys, hnodup⟩ : (∀ p ∈ m, p.1 = t.keyOf p.2) ∧ (m.map Prod.fst).Nodup := by
          simpa [TableInv, hc] using hinv
        have h1 : (t.applyOp (.set (.str s) none)).content = .keyed (objDelete m s) := by
          simp [Table.applyOp, Table.set, hc]
        simp only [TableInv, h1, Table.applyOp_keyOf]
        refine ⟨?_, ?_⟩
        · intro p hp
          exact hkeys p (List.mem_of_mem_filter hp)
        · exact hnodup.sublist ((List.filter_sublist m).map Prod.fst)
      | some v =>
        obtain ⟨⟨m, hc⟩, hk⟩ := hop
        obtain ⟨hkeys, hnodup⟩ : (∀ p ∈ m, p.1 = t.keyOf p.2) ∧ (m.map Prod.fst).Nodup := by
          simpa [TableInv, hc] using hinv
        have h1 : (t.applyOp (.set (.str s) (some v))).content = .keyed (objSet m s v) := by
          simp [Table.applyOp, Table.set, hc]
        simp only [TableInv, h1, Table.applyOp_keyOf]
        exact ⟨objSet_forall m s v _ hkeys hk.symm, objSet_nodup_keys m s v hnodup⟩
    | num n =>
      cases r with
      | none => exact absurd hop (by simp [GoodOp])
      | some v =>
        obtain ⟨l, ex, hc, hlt⟩ := hop
        obtain ⟨hsome, hex⟩ : (∀ o ∈ l, o.isSome = true) ∧ ex = [] := by
          simpa [TableInv, hc] using hinv
        have h1 : (t.applyOp (.set (.num n) (some v))).content
            = .indexed (arrSet l n v) ex := by
          simp [Table.applyOp, Table.set, hc]
        simp only [TableInv, h1]
        refine ⟨?_, hex⟩
        unfold arrSet
        rw [if_pos hlt]
        intro o ho
        rcases List.mem_or_eq_of_mem_set ho with ho | ho
        · exact hsome o ho
        · rw [ho]
          rfl

/-- A well-formed call sequence preserves the table invariant. -/
theorem TableInv.applyOps (t : Table α) (ops : List (TOp α))
    (hops : GoodOps t ops) : TableInv t → TableInv (t.applyOps ops) := by
  induction hops with
  | nil t => exact fun h => h
  | cons t op ops hop _ ih =>
      intro hinv
      rw [Table.applyOps_cons]
      exact ih (TableInv.applyOp t op hinv hop)

theorem exists_map_some_of_all_isSome (l : List (Option α))
    (h : ∀ o ∈ l, o.isSome = true) : ∃ rs : List α, l = rs.map some := by
  induction l with
  | nil => exact ⟨[], rfl⟩
  | cons o l ih =>
    obtain ⟨rs, hrs⟩ := ih (fun o ho => h o (List.mem_cons_of_mem _ ho))
    cases o with
    | none => simpa using h none (List.mem_cons_self none l)
    | some a =>
      refine ⟨a :: rs, ?_⟩
      rw [hrs]
      rfl

@[simp]
theorem Table.create_schemaFromJson (b : Bool) (f : JSON → α) (g : α → JSON)
    (kf : α → String) : (Table.create b f g kf).schemaFromJson = f := rfl

@[simp]
theorem Table.create_schemaToJson (b : Bool) (f : JSON → α) (g : α → JSON)
    (kf : α → String) : (Table.create b f g kf).schemaToJson = g := rfl

@[simp]
theorem Table.create_keyOf (b : Bool) (f : JSON → α) (g : α → JSON)
    (kf : α → String) : (Table.create b f g kf).keyOf = kf := rfl

@[simp]
theorem Table.create_shouldUseCache (b : Bool) (f : JSON → α) (g : α → JSON)
    (kf : α → String) : (Table.create b f g kf).shouldUseCache = false := rfl

theorem Table.create_content_keyed (f : JSON → α) (g : α → JSON)
    (kf : α → String) : (Table.create true f g kf).content = .keyed [] := rfl

theorem Table.create_content_indexed (f : JSON → α) (g : α → JSON)
    (kf : α → String) : (Table.create false f g kf).content = .indexed [] [] := rfl

/-- The heart of the round-trip property: on a well-formed table whose
cache flag is clear and whose schema functions cancel, serializing and
bulk-ingesting into a fresh same-mode table reproduces the content
exactly. -/
theorem Table.roundTrip_content (t : Table α)
    (hinv : TableInv t) (hcache : t.shouldUseCache = false)
    (hfg : ∀ r, t.schemaFromJson (t.schemaToJson r) = r) :
    t.roundTrip.content = t.content := by
  rcases hc : t.content with m | ⟨l, ex⟩
  · obtain ⟨hkeys, hnodup⟩ : (∀ p ∈ m, p.1 = t.keyOf p.2) ∧ (m.map Prod.fst).Nodup := by
      simpa [TableInv, hc] using hinv
    have htj : t.toJson.1 = .obj (mapObject m t.schemaToJson) := by
      rw [Table.toJson_of_invalid_cache t hcache]
      simp [Table.contentToJson, hc]
    have hmm : mapObject (mapObject m t.schemaToJson) t.schemaFromJson = m := by
      unfold mapObject
      rw [List.map_map]
      rw [List.map_congr_left (fun p _ => by simp [hfg p.2] :
        ∀ p ∈ m, ((fun p => (p.1, t.schemaFromJson p.2))
          ∘ (fun p => (p.1, t.schemaToJson p.2))) p = id p)]
      exact List.map_id m
    have hrt : t.roundTrip
        = (Table.create true t.schemaFromJson t.schemaToJson t.keyOf).bulkIngest
            t.toJson.1 := by
      unfold Table.roundTrip
      rw [hc]
    rw [hrt, htj]
    simp only [Table.bulkIngest, Table.fromJson, Table.create_schemaFromJson]
    rw [hmm, Table.foldl_add_values]
    have hkf : ∀ p ∈ m, (t.keyOf ∘ Prod.snd) p = Prod.fst p :=
      fun p hp => (hkeys p hp).symm
    have hfold := Table.addAll_keyed
      (Table.create true t.schemaFromJson t.schemaToJson t.keyOf) []
      (m.map Prod.snd) (Table.create_content_keyed _ _ _)
      (by
        simp only [List.map_nil, List.nil_append, Table.create_keyOf, List.map_map]
        rw [List.map_congr_left hkf]
        exact hnodup)
    rw [hfold]
    simp only [Table.create_keyOf, List.nil_append, List.map_map, hc]
    rw [List.map_congr_left (fun p hp => by
      simp [← hkeys p hp] :
      ∀ p ∈ m, ((fun r => (t.keyOf r, r)) ∘ Prod.snd) p = id p)]
    rw [List.map_id]
  · obtain ⟨hsome, hex⟩ : (∀ o ∈ l, o.isSome = true) ∧ ex = [] := by
      simpa [TableInv, hc] using hinv
    obtain ⟨rs, hrs⟩ := exists_map_some_of_all_isSome l hsome
    have htj : t.toJson.1 = .arr (rs.map t.schemaToJson) := by
      rw [Table.toJson_of_invalid_cache t hcache]
      simp only [Table.contentToJson, hc, hrs, List.map_map]
      rfl
    have hrt : t.roundTrip
        = (Table.create false t.schemaFromJson t.schemaToJson t.keyOf).bulkIngest
            t.toJson.1 := by
      unfold Table.roundTrip
      rw [hc]
    rw [hrt, htj]
    simp only [Table.bulkIngest, Table.fromJson, Table.create_schemaFromJson,
      List.map_map]
    rw [List.map_congr_left (fun r _ => by simp [hfg r] :
      ∀ r ∈ rs, (t.schemaFromJson ∘ t.schemaToJson) r = id r)]
    rw [List.map_id]
    rw [Table.addAll_indexed
      (Table.create false t.schemaFromJson t.schemaToJson t.keyOf) [] [] rs
      (Table.create_content_indexed _ _ _)]
    rw [List.nil_append, ← hrs, hex]

end PatchDb

/-! ## Claim theorems -/

namespace PatchDb

/-- C1: the claim states that after `addTable` every mutating call on
the table leaves the database's `shouldSave` flag true.  The code
violates this: `addTable` registers `this.setShouldSaveToTrue` unbound,
so the emitter invokes it with `this` = the table; the assignment
`this.shouldSave = true` creates a data property on the table object and
the database's dirty bit stays false.  Evaluated here at a concrete
input: after `add` the database reports `shouldSave = false`, while the
stray `shouldSave` property sits on the table. -/
theorem c1_table_mutation_leaves_database_clean :
    c1Db.shouldSave = false
      ∧ (objGet c1Db.tables "users").map (fun t => t.dbShouldSaveProp)
          = some (some true)
      ∧ ∀ (α : Type) (db : Database α) (name : String) (op : TOp α),
          (db.tableMutate name op).shouldSave = db.shouldSave := by
  refine ⟨rfl, rfl, ?_⟩
  intro α db name op
  unfold Database.tableMutate
  cases objGet db.tables name <;> rfl

/-- C2: the claim states that a create / permission-set / initial-write
failure surfaces a distinct per-stage error.  The code violates this:
each inner stage throws its descriptive message inside the outer `try`,
whose `catch` calls `close()` again and replaces it with the one generic
message — the caller sees the same `Cannot create file 'p'!` for all
three stages (after cleanup: the database ends up closed). -/
theorem c2_all_create_stages_share_generic_error :
    ((Database.create "p" 0 : Database (String × Int)).start envEnsureFail).2
        = .error "Cannot create file 'p'!"
      ∧ ((Database.create "p" 0 : Database (String × Int)).start envChmodFail).2
          = .error "Cannot create file 'p'!"
      ∧ ((Database.create "p" 0 : Database (String × Int)).start envWriteFail).2
          = .error "Cannot create file 'p'!"
      ∧ (((Database.create "p" 0 : Database (String × Int)).start envEnsureFail).1).closed
          = true := by
  exact ⟨rfl, rfl, rfl, rfl⟩

/-- C3: the claim states that `deleteTable` on an absent name of a
not-yet-started database returns undefined without raising.  The code
violates this: it reads `tables[name]` (undefined), deletes the key,
then calls `table.off(...)` — a TypeError on undefined.  The registry is
indeed left unchanged (the delete of an absent key is a no-op), but an
error is raised instead of the absence value. -/
theorem c3_delete_missing_table_throws_typeerror :
    ((Database.create "p" 0 : Database (String × Int)).deleteTable "missing").2
        = .error "TypeError: Cannot read properties of undefined (reading 'off')"
      ∧ ((Database.create "p" 0 : Database (String × Int)).deleteTable "missing").1.tables
          = [] := by
  exact ⟨rfl, rfl⟩

/-- C4: the claim states that `close()` flushes pending state via a
final save for any autosave setting, including 0.  The code violates
this: with `autosave = 0` the `once("ready")` handler registers no
`close` listener, so `close()` only emits the event, releases the handle
and flips the flags — no save happens.  Evaluated at a concrete input:
after start (file holds the empty table document), a record is added and
`close()` called; the file still holds the pre-mutation document while
the record sits in the in-memory table.  The flag part of the claim does
hold: `started = false`, `closed = true`. -/
theorem c4_close_with_autosave_zero_does_not_flush :
    c4Closed.fileContents = c4SavedDoc.data
      ∧ (c4Closed.getTable "t").map (fun t => t.get (.str "a"))
          = some (some ("a", 5))
      ∧ c4Closed.started = false
      ∧ c4Closed.closed = true := by
  exact ⟨by decide, rfl, rfl, rfl⟩

/-- C7: the claim states that `addTable`/`deleteTable` fail after
`start()` and succeed before it.  The gating clauses hold: before start,
`addTable` succeeds and registers, and `deleteTable` of a present name
succeeds and unregisters; after a successful start both throw the
lifecycle error and leave the registry unchanged.  But the code violates
the unrestricted before-start success clause: `deleteTable` of an
absent name throws a TypeError (the `table.off` call on undefined)
instead of succeeding. -/
theorem c7_lifecycle_gating_and_delete_crash :
    (((Database.create "p" 0 : Database (String × Int)).addTable "t" recTable).2).isOk
        = true
      ∧ c7Before.hasTable "t" = true
      ∧ ((c7Before.deleteTable "t").2).isOk = true
      ∧ (c7Before.deleteTable "t").1.tables = []
      ∧ c7Started.started = true
      ∧ (c7Started.addTable "x" recTable).2
          = .error "Cannot modify tables after database started!"
      ∧ (c7Started.addTable "x" recTable).1.tables = c7Started.tables
      ∧ (c7Started.deleteTable "t").2
          = .error "Cannot modify tables after database started!"
      ∧ (c7Started.deleteTable "t").1.tables = c7Started.tables
      ∧ ((Database.create "p" 0 : Database (String × Int)).deleteTable "x").2
          = .error "TypeError: Cannot read properties of undefined (reading 'off')" := by
  exact ⟨rfl, rfl, rfl, rfl, rfl, rfl, rfl, rfl, rfl, rfl⟩

/-- C5 counterexample: a started, dirty database whose single table's
serialization contains a JSON null (an array hole, reachable through
`add` then `set(0, null)`).  The claim — that for every dirty started
database `save()` leaves the file equal to the serialized document — is
false here: the stringify replacer dereferences `null.toJson` and
throws, the guard is left claimed and the file keeps its old bytes. -/
theorem c5_save_crashes_on_null :
    c5BadDb.shouldSave = true
      ∧ c5BadDb.started = true
      ∧ c5BadDb.isSaving = false
      ∧ c5BadDb.save.2
          = .error "TypeError: Cannot read properties of null (reading 'toJson')"
      ∧ (c5BadDb.save.1).fileContents = "old".data
      ∧ (c5BadDb.save.1).isSaving = true := by
  exact ⟨rfl, rfl, rfl, rfl, rfl, rfl⟩

/-- C5 (amended): for every dirty (`shouldSave`), not-already-saving
database with an open file handle whose serialized document stringifies
without error — i.e. the replacer meets no JSON null — `save()` writes
the document at byte offset 0 and truncates the file to exactly the
document's length, so afterwards the file's contents equal exactly the
new document, with no trailing bytes from any previous longer write. -/
theorem c5_save_writes_exact_document (db : Database α) (s : String)
    (h1 : db.shouldSave = true) (h2 : db.isSaving = false)
    (h3 : db.fileOpen = true)
    (h4 : stringifyJson (db.serializeDoc).1 = .ok s) :
    (db.save.1).fileContents = s.data ∧ db.save.2 = .ok () := by
  unfold Database.save
  rw [h1, h2]
  rcases hp : db.serializeDoc with ⟨doc, tbs⟩
  rw [hp] at h4
  simp only at h4
  simp only [Bool.not_false, Bool.and_self, eq_self_iff_true, if_true,
    Database.save_pre_serializeDoc, hp, h4]
  simp only [Database.setShouldSave_fileOpen, Database.setShouldSave_fileContents,
    h3, eq_self_iff_true, if_true, fileTruncate_fileWrite0]
  exact ⟨trivial, trivial⟩

/-- C5 witness: `c5GoodDb` (dirty, started, one keyed record, longer
stale bytes on disk) satisfies every hypothesis, and after `save()` the
file is exactly the fresh document. -/
theorem c5_save_writes_exact_document_witness :
    (c5GoodDb.shouldSave = true ∧ c5GoodDb.isSaving = false
        ∧ c5GoodDb.fileOpen = true
        ∧ stringifyJson (c5GoodDb.serializeDoc).1 = .ok c5GoodDoc)
      ∧ (c5GoodDb.save.1).fileContents = c5GoodDoc.data
      ∧ c5GoodDb.save.2 = .ok () := by
  refine ⟨⟨rfl, rfl, rfl, rfl⟩, ?_, ?_⟩
  · exact (c5_save_writes_exact_document c5GoodDb c5GoodDoc rfl rfl rfl rfl).1
  · exact (c5_save_writes_exact_document c5GoodDb c5GoodDoc rfl rfl rfl rfl).2

/-- C6: `toJson` (`serialize()`) called twice with no mutation between
the calls returns the identical cached value the second time without
recomputing (the cache-invalid test is false and the table state is
untouched); any `add` or `set` in between clears the cache flag, so the
next `toJson` recomputes and returns the serialization of the mutated
content. -/
theorem c6_serialize_cache_correct (t : Table α) (op : TOp α) :
    ((t.toJson.2).toJson).1 = t.toJson.1
      ∧ ((t.toJson.2).toJson).2 = t.toJson.2
      ∧ (t.toJson.2).toJsonRecomputes = false
      ∧ ((t.toJson.2).applyOp op).toJsonRecomputes = true
      ∧ (((t.toJson.2).applyOp op).toJson).1
          = ((t.toJson.2).applyOp op).contentToJson := by
  obtain ⟨hs, hc⟩ := Table.toJson_snd_cache t
  have hone := Table.toJson_of_valid_cache (t.toJson.2) t.toJson.1 hs hc
  refine ⟨?_, ?_, ?_, ?_, ?_⟩
  · rw [hone]
  · rw [hone]
  · unfold Table.toJsonRecomputes
    rw [hs, hc]
    rfl
  · unfold Table.toJsonRecomputes
    rw [Table.applyOp_shouldUseCache]
    rfl
  · exact Table.toJson_of_invalid_cache _ (Table.applyOp_shouldUseCache _ op)

/-- C8: on a `Keyed` table (content a keyed object with the distinct
keys every JS object guarantees), adding two records whose `key` fields
are both `k` leaves exactly one entry under `k`, and `get(k)` returns
the second record: the second `add` overwrites the first. -/
theorem c8_keyed_double_add_overwrites (t : Table α) (m : List (String × α))
    (r1 r2 : α) (k : String)
    (hc : t.content = .keyed m) (hn : (m.map Prod.fst).Nodup)
    (h1 : t.keyOf r1 = k) (h2 : t.keyOf r2 = k) :
    (∃ m', ((t.add r1).add r2).content = .keyed m'
      ∧ countKey m' k = 1
      ∧ objGet m' k = some r2)
    ∧ ((t.add r1).add r2).get (.str k) = some r2 := by
  have hc1 : (t.add r1).content = .keyed (objSet m k r1) := by
    rw [Table.add_content_keyed t m r1 hc, h1]
  have hc2 : ((t.add r1).add r2).content
      = .keyed (objSet (objSet m k r1) k r2) := by
    rw [Table.add_content_keyed (t.add r1) (objSet m k r1) r2 hc1,
      Table.add_keyOf, h2]
  have hn1 : ((objSet m k r1).map Prod.fst).Nodup := objSet_nodup_keys m k r1 hn
  refine ⟨⟨objSet (objSet m k r1) k r2, hc2, ?_, ?_⟩, ?_⟩
  · exact countKey_objSet (objSet m k r1) k r2 hn1
  · exact objGet_objSet_self (objSet m k r1) k r2
  · rw [Table.get_keyed _ _ k hc2]
    exact objGet_objSet_self (objSet m k r1) k r2

/-- C8 witness: the fresh keyed `recTable`, records `("x", 1)` and
`("x", 2)` sharing key `"x"`: all hypotheses hold and the second add
wins. -/
theorem c8_keyed_double_add_overwrites_witness :
    (recTable.content = .keyed [] ∧ (([] : List (String × (String × Int))).map Prod.fst).Nodup
        ∧ recTable.keyOf ("x", (1 : Int)) = "x" ∧ recTable.keyOf ("x", (2 : Int)) = "x")
      ∧ ((∃ m', ((recTable.add ("x", 1)).add ("x", 2)).content = .keyed m'
            ∧ countKey m' "x" = 1
            ∧ objGet m' "x" = some ("x", 2))
          ∧ ((recTable.add ("x", 1)).add ("x", 2)).get (.str "x") = some ("x", 2)) :=
  ⟨⟨rfl, List.nodup_nil, rfl, rfl⟩,
    c8_keyed_double_add_overwrites recTable [] ("x", 1) ("x", 2) "x"
      rfl List.nodup_nil rfl rfl⟩

/-- C9 counterexample: on a keyed table, `set` may store a record under
a key other than the record's own `key` field.  Here two distinct
records, both with `key` field `"x"`, are stored under `"a"` and `"b"`;
the schema functions are mutually inverse (checked at the records
involved), yet the round trip (serialize, then `fromJson` + `add` each
entry, as `start()` ingests) collapses them under `"x"` and the record
`("x", 1)` is lost — the record set is not reproduced. -/
theorem c9_set_with_foreign_key_breaks_round_trip :
    recFromJson (recToJson ("x", (1 : Int))) = ("x", 1)
      ∧ recFromJson (recToJson ("x", (2 : Int))) = ("x", 2)
      ∧ c9Table.getAll = [("x", 1), ("x", 2)]
      ∧ c9Table.roundTrip.getAll = [("x", 2)]
      ∧ ¬(("x", (1 : Int)) ∈ c9Table.roundTrip.getAll) := by
  exact ⟨rfl, rfl, rfl, rfl, by decide⟩

/-- C9 (amended): for every sequence of add/set calls on a fresh table
in which each keyed `set` stores the record under its own key (or
deletes), and each indexed `set` is an in-range non-null element write —
and assuming the user-supplied `fromJson`/`toJson` are mutually
inverse — feeding `serialize()`'s output through bulk ingestion into a
fresh table of the same mode reproduces the record container exactly. -/
theorem c9_round_trip_of_well_keyed (mode : Bool) (f : JSON → α) (g : α → JSON)
    (kf : α → String) (ops : List (TOp α))
    (hgood : GoodOps (Table.create mode f g kf) ops)
    (hfg : ∀ r, f (g r) = r) :
    ((Table.create mode f g kf).applyOps ops).roundTrip.content
      = ((Table.create mode f g kf).applyOps ops).content := by
  have hinv0 : TableInv (Table.create mode f g kf) := by
    cases mode
    · simp [TableInv, Table.create_content_indexed]
    · simp [TableInv, Table.create_content_keyed]
  exact Table.roundTrip_content _ (TableInv.applyOps _ ops hgood hinv0)
    (Table.applyOps_shouldUseCache _ ops rfl)
    (fun r => by
      rw [Table.applyOps_schemaFromJson, Table.applyOps_schemaToJson,
        Table.create_schemaFromJson, Table.create_schemaToJson]
      exact hfg r)

/-- C9 witness: a concrete well-formed sequence — an `add` and a `set`
under the record's own key — on a fresh keyed table over the concrete
inverse schema; the round trip reproduces the content. -/
theorem c9_round_trip_of_well_keyed_witness :
    ((Table.create true recFromJson recToJson Prod.fst).applyOps
        [TOp.add ("x", 1), TOp.set (.str "y") (some ("y", 2))]).roundTrip.content
      = ((Table.create true recFromJson recToJson Prod.fst).applyOps
        [TOp.add ("x", 1), TOp.set (.str "y") (some ("y", 2))]).content :=
  c9_round_trip_of_well_keyed true recFromJson recToJson Prod.fst
    [TOp.add ("x", 1), TOp.set (.str "y") (some ("y", 2))]
    (GoodOps.cons _ _ _ trivial
      (GoodOps.cons _ _ _ ⟨⟨[("x", ("x", 1))], rfl⟩, rfl⟩
        (GoodOps.nil _)))
    (fun _ => rfl)

/-- C10: `getAll` on an `Indexed`-mode table returns the empty list
after any sequence of add/set calls — even though the records are
stored in the content (the third conjunct shows the adds landed) —
while on a `Keyed`-mode table `getAll` returns exactly the stored
records. -/
theorem c10_indexed_getAll_always_empty (f : JSON → α) (g : α → JSON)
    (kf : α → String) (ops : List (TOp α)) (rs : List α)
    (hk : (rs.map kf).Nodup) :
    (∃ l ex, ((Table.create false f g kf).applyOps ops).content = .indexed l ex)
      ∧ ((Table.create false f g kf).applyOps ops).getAll = []
      ∧ (rs.foldl Table.add (Table.create false f g kf)).content
          = .indexed (rs.map some) []
      ∧ (rs.foldl Table.add (Table.create true f g kf)).getAll = rs := by
  have hmode := Table.applyOps_indexed (Table.create false f g kf) ops [] []
    (Table.create_content_indexed f g kf)
  refine ⟨hmode, ?_, ?_, ?_⟩
  · obtain ⟨l2, ex2, h2⟩ := hmode
    simp [Table.getAll, h2]
  · have h := Table.addAll_indexed (Table.create false f g kf) [] [] rs
      (Table.create_content_indexed f g kf)
    simpa using h
  · have hfold := Table.addAll_keyed (Table.create true f g kf) [] rs
      (Table.create_content_keyed f g kf)
      (by simpa using hk)
    simp only [Table.getAll, hfold, List.nil_append, List.map_map,
      Table.create_keyOf]
    rw [show ((fun (p : String × α) => p.2) ∘ fun r => (kf r, r)) = id from rfl,
      List.map_id]

/-- C10 witness: concrete runs — an indexed table after an `add` and a
deletion still reports `getAll = []`, while the keyed table over the
same records reports both. -/
theorem c10_indexed_getAll_always_empty_witness :
    ((([("a", 1), ("b", 2)] : List (String × Int)).map Prod.fst).Nodup)
      ∧ ((∃ l ex, ((Table.create false recFromJson recToJson Prod.fst).applyOps
            [TOp.add ("a", 1), TOp.set (.num 0) none]).content = .indexed l ex)
        ∧ ((Table.create false recFromJson recToJson Prod.fst).applyOps
            [TOp.add ("a", 1), TOp.set (.num 0) none]).getAll = []
        ∧ (([("a", 1), ("b", 2)] : List (String × Int)).foldl Table.add
            (Table.create false recFromJson recToJson Prod.fst)).content
              = .indexed (([("a", 1), ("b", 2)] : List (String × Int)).map some) []
        ∧ (([("a", 1), ("b", 2)] : List (String × Int)).foldl Table.add
            (Table.create true recFromJson recToJson Prod.fst)).getAll
              = [("a", 1), ("b", 2)]) :=
  ⟨by decide,
    c10_indexed_getAll_always_empty recFromJson recToJson Prod.fst
      [TOp.add ("a", 1), TOp.set (.num 0) none] [("a", 1), ("b", 2)] (by decide)⟩

end PatchDb
